import Mathlib

/-!
Shallow embedding of `metrics2mqtt/metrics.py` (host-metrics polling agent).

The Python module defines a family of metric classes (`CPUMetrics`,
`VirtualMemoryMetrics`, `DiskUsageMetrics`, `NetworkMetrics`) sharing
`BaseMetric`, plus two background-thread bodies (`CPUMetricThread.run`,
`NetworkMetricThread.run`).  Pure computations are translated to Lean
functions; the network sampling loop becomes explicit state passing over a
per-second schedule; the uncaught Python `KeyError` in
`NetworkMetricThread.run` is modelled with `Except`.  Counters are `Nat`
(Python ints are unbounded); numpy float arithmetic on the small rate
computations is modelled with `ℚ`, with numpy's `nan` (average of an empty
array) modelled as `none`.
-/

namespace MetricsMqtt

/-- Loop state of the sampling `while` loop in `NetworkMetricThread.run`
(lines 142-164): `prev_tx`, `prev_rx`, `base_tx`, `base_rx` and the two
sample lists `tx_bytes`, `rx_bytes`.  All start at `0` / empty. -/
structure NetState where
  prev_tx : Nat
  prev_rx : Nat
  base_tx : Nat
  base_rx : Nat
  tx_bytes : List Nat
  rx_bytes : List Nat
deriving DecidableEq

/-- Initial loop state: `prev_tx = prev_rx = base_tx = base_rx = 0`,
empty sample lists. -/
def initNetState : NetState := ⟨0, 0, 0, 0, [], []⟩

/-- One iteration of the `while x < interval` loop body.  The argument `o`
is the entry of `psutil.net_io_counters(pernic=True)` for the target nic at
that second: `some (bytes_sent, bytes_recv)` when the nic is in the map,
`none` when absent (then the body inside `if self.metric.nic in nics` is
skipped and the state is unchanged). -/
def netStep (s : NetState) (o : Option (Nat × Nat)) : NetState :=
  match o with
  | none => s
  | some (tx, rx) =>
    { prev_tx := tx, prev_rx := rx,
      base_tx := if tx < s.prev_tx then s.base_tx + s.prev_tx else s.base_tx,
      base_rx := if rx < s.prev_rx then s.base_rx + s.prev_rx else s.base_rx,
      tx_bytes :=
        s.tx_bytes ++ [(if tx < s.prev_tx then s.base_tx + s.prev_tx else s.base_tx) + tx],
      rx_bytes :=
        s.rx_bytes ++ [(if rx < s.prev_rx then s.base_rx + s.prev_rx else s.base_rx) + rx] }

/-- The whole sampling loop: one `netStep` per second of the schedule
(`sched.length = interval`; the loop runs exactly `interval` iterations). -/
def netLoop (sched : List (Option (Nat × Nat))) : NetState :=
  sched.foldl netStep initNetState

/-- Invariant of the sampling loop: each corrected sample list is
non-decreasing and its last element is at most `base + prev`. -/
def NetInv (s : NetState) : Prop :=
  List.Chain' (· ≤ ·) s.tx_bytes ∧ List.Chain' (· ≤ ·) s.rx_bytes ∧
  (∀ a ∈ s.tx_bytes.getLast?, a ≤ s.base_tx + s.prev_tx) ∧
  (∀ a ∈ s.rx_bytes.getLast?, a ≤ s.base_rx + s.prev_rx)

/-- numpy `diff`: consecutive differences of a sample list (as integers,
as numpy would produce; the lists here are `Nat`-valued). -/
def npDiff (l : List Nat) : List Int :=
  List.zipWith (fun (a b : Nat) => (b : Int) - (a : Int)) l l.tail

/-- numpy `average`: arithmetic mean.  On an empty array numpy returns
`nan`, modelled as `none`. -/
def npAverage (l : List Int) : Option ℚ :=
  if l.isEmpty then none else some ((l.sum : ℚ) / (l.length : ℚ))

/-- Python `"{:.1f}".format(q)` for the nonnegative values this program
formats: round to one decimal (`⌊q * 10 + 1/2⌋` tenths) and render
`intPart.tenths`. -/
def fmt1 (q : ℚ) : String :=
  toString (⌊q * 10 + 1 / 2⌋ / 10) ++ "." ++ toString (⌊q * 10 + 1 / 2⌋ % 10)

/-- `float("{:.1f}".format(q))`: the value rounded to one decimal place
(used for the `tx_rate` / `rx_rate` attribute fields). -/
def round1 (q : ℚ) : ℚ := ((⌊q * 10 + 1 / 2⌋ : Int) : ℚ) / 10

/-- Line 165-166: `average(diff(array(tx_bytes))) / 125.0`. -/
def netTxRate (s : NetState) : Option ℚ :=
  (npAverage (npDiff s.tx_bytes)).map (fun r => r / 125)

/-- Line 167-168: `average(diff(array(rx_bytes))) / 125.0`. -/
def netRxRate (s : NetState) : Option ℚ :=
  (npAverage (npDiff s.rx_bytes)).map (fun r => r / 125)

/-- Line 171: `"{:.1f}".format(tx_rate + rx_rate)`.  When the sample lists
were empty the rates are numpy `nan` (here `none`) and Python formats the
sum as the string `"nan"`. -/
def netStateStr (txr rxr : Option ℚ) : String :=
  match txr, rxr with
  | some a, some b => fmt1 (a + b)
  | _, _ => "nan"

/-- The dict stored into `polled_result` by `NetworkMetricThread.run`:
`state`, the rounded `tx_rate` / `rx_rate` attribute fields, and the raw
last-read counter snapshot from `nics[self.metric.nic]._asdict()`. -/
structure NetResult where
  state : String
  tx_rate : Option ℚ
  rx_rate : Option ℚ
  last_tx : Nat
  last_rx : Nat
deriving DecidableEq

instance {ε α : Type} [DecidableEq ε] [DecidableEq α] : DecidableEq (Except ε α) :=
  fun a b =>
    match a, b with
    | Except.ok x, Except.ok y =>
      if h : x = y then isTrue (by rw [h])
      else isFalse (fun hc => h (by cases hc; rfl))
    | Except.error x, Except.error y =>
      if h : x = y then isTrue (by rw [h])
      else isFalse (fun hc => h (by cases hc; rfl))
    | Except.ok _, Except.error _ => isFalse (fun hc => Except.noConfusion hc)
    | Except.error _, Except.ok _ => isFalse (fun hc => Except.noConfusion hc)

/-- The body of `NetworkMetricThread.run` (lines 141-181).  `nics0` is the
nic's entry in the `net_io_counters` read before the loop (line 147),
`sched` its entry at each of the `interval` in-loop reads (line 149); the
final value of the Python variable `nics` is the last read, i.e.
`sched.getLast?.getD nics0`.  Accessing `nics[self.metric.nic]` for the
attrs dict raises an uncaught `KeyError` when the nic is absent from that
final read, modelled as `Except.error ()`: the thread dies before
`result_queue.put`. -/
def netRun (nics0 : Option (Nat × Nat)) (sched : List (Option (Nat × Nat))) :
    Except Unit NetResult :=
  let s := netLoop sched
  let txr := netTxRate s
  let rxr := netRxRate s
  match sched.getLast?.getD nics0 with
  | none => Except.error ()
  | some last =>
    Except.ok
      { state := netStateStr txr rxr,
        tx_rate := txr.map round1,
        rx_rate := rxr.map round1,
        last_tx := last.1,
        last_rx := last.2 }

/-- The sequence of `result_queue.put` calls performed by one
`NetworkMetricThread`: one on normal completion (line 181), none when the
thread dies with the `KeyError`. -/
def netPuts (nics0 : Option (Nat × Nat)) (sched : List (Option (Nat × Nat))) :
    List NetResult :=
  match netRun nics0 sched with
  | Except.ok r => [r]
  | Except.error _ => []

/-- Result of `psutil.cpu_times_percent`, as far as the thread body uses
it: the `idle` percentage (the remaining fields only feed `jsons.dump`). -/
structure CpuTimes where
  idle : ℚ
deriving DecidableEq

/-- The dict stored into `polled_result` by `CPUMetricThread.run`. -/
structure CpuResult where
  state : String
  attrs : CpuTimes
deriving DecidableEq

/-- Body of `CPUMetricThread.run` (lines 52-60): state is
`"{:.1f}".format(100.0 - cpu_times.idle)`. -/
def cpuRun (ct : CpuTimes) : CpuResult :=
  { state := fmt1 (100 - ct.idle), attrs := ct }

/-- The `result_queue.put` calls of one `CPUMetricThread`: always exactly
one (line 60; nothing in the body can skip it in the model). -/
def cpuPuts (ct : CpuTimes) : List CpuResult := [cpuRun ct]

/-- `CPUMetrics.poll` (lines 71-76): starts one `CPUMetricThread` and
returns `True` ("Expect a deferred result").  Modelled as the pair
(number of threads started, return value). -/
def cpuPoll : Nat × Bool := (1, true)

/-- `NetworkMetrics.poll` (lines 194-199): starts one
`NetworkMetricThread` and returns `True`.  Modelled as the pair
(number of threads started, return value). -/
def netPoll : Nat × Bool := (1, true)

/-- A synchronous metric's `polled_result`: the formatted `state` and the
sampled percentage that feeds the attrs dump. -/
structure SyncReading where
  state : String
  attrs_percent : ℚ
deriving DecidableEq

/-- `VirtualMemoryMetrics.poll` (lines 85-91): samples
`psutil.virtual_memory()` (its `percent` field is the model input), stores
`polled_result` with the one-decimal state string, returns `False`. -/
def vmPoll (percent : ℚ) : SyncReading × Bool :=
  ({ state := fmt1 percent, attrs_percent := percent }, false)

/-- `DiskUsageMetrics.poll` (lines 101-107): samples
`psutil.disk_usage(self.mountpoint)` (its `percent` field is the model
input), stores `polled_result`, returns `False`. -/
def diskPoll (percent : ℚ) : SyncReading × Bool :=
  ({ state := fmt1 percent, attrs_percent := percent }, false)

/-- Modelled from the spec: the spec's `Poll` contract returns
`immediate : bool` where "`immediate = true` means the Reading is already
populated on return"; the code's `poll` return value is the opposite flag
(`True` is commented "Expect a deferred result").  The refinement mapping
is boolean negation. -/
def immediateOfRet (ret : Bool) : Bool := !ret

/-- One character of Python `str.replace` with single-character pattern
and replacement. -/
def replChar (a b c : Char) : Char := if c = a then b else c

/-- Python `str.replace` for single characters, applied characterwise. -/
def pyReplaceChar (a b : Char) (s : List Char) : List Char :=
  s.map (replChar a b)

/-- `BaseMetric.sanitize` (lines 38-40):
`val.lower().replace(" ", "_").replace("/", "_")`, on the character
list. -/
def sanitizeChars (s : List Char) : List Char :=
  pyReplaceChar '/' '_' (pyReplaceChar ' ' '_' (s.map Char.toLower))

/-- `BaseMetric.sanitize` on `String`. -/
def sanitize (s : String) : String := String.mk (sanitizeChars s.data)

/-- The config dict returned by the `get_config_topic` methods. -/
structure ConfigTopic where
  name : String
  unique_id : String
  qos : Nat
  icon : String
  unit_of_measurement : String
  availability_topic : String
  json_attributes_topic : String
  state_topic : String
deriving DecidableEq

/-- One topic string `"tp/sensor/sn/n/leaf"`. -/
def topicFor (tp sn n leaf : String) : String :=
  tp ++ "/sensor/" ++ sn ++ "/" ++ n ++ "/" ++ leaf

/-- The `self.topics` dict (ordered keys as written in the source). -/
def mkTopics (tp sn n : String) : List (String × String) :=
  [("state", topicFor tp sn n "state"),
   ("config", topicFor tp sn n "config"),
   ("avail", topicFor tp sn n "availability"),
   ("attrs", topicFor tp sn n "attributes")]

/-- `BaseMetric.get_config_topic` (lines 17-36), for a metric with the
given `name`, `icon`, `unit_of_measurement`.  Returns the `self.topics`
assignment and the returned config dict (which reads back
`self.topics["avail"]`, `self.topics["attrs"]`, `self.topics["state"]`). -/
def get_config_topic (name icon uom tp system_name : String) :
    List (String × String) × ConfigTopic :=
  let sn := sanitize system_name
  let n := sanitize name
  let topics := mkTopics tp sn n
  (topics,
   { name := system_name ++ " " ++ name,
     unique_id := sn ++ "_" ++ n,
     qos := 1,
     icon := icon,
     unit_of_measurement := uom,
     availability_topic := (topics.lookup "avail").getD "",
     json_attributes_topic := (topics.lookup "attrs").getD "",
     state_topic := (topics.lookup "state").getD "" })

/-- `DiskUsageMetrics.get_config_topic` (lines 109-132): the topic node is
`"disk_usage_" ++ sanitize mountpoint`. -/
def disk_get_config_topic (mountpoint icon uom tp system_name : String) :
    List (String × String) × ConfigTopic :=
  let sn := sanitize system_name
  let n := sanitize mountpoint
  let topics := mkTopics tp sn ("disk_usage_" ++ n)
  (topics,
   { name := system_name ++ " Disk Usage (" ++ mountpoint ++ " Volume)",
     unique_id := sn ++ "_disk_usage_" ++ n,
     qos := 1,
     icon := icon,
     unit_of_measurement := uom,
     availability_topic := (topics.lookup "avail").getD "",
     json_attributes_topic := (topics.lookup "attrs").getD "",
     state_topic := (topics.lookup "state").getD "" })

/-- `NetworkMetrics.get_config_topic` (lines 201-220): the topic node is
`"net_" ++ sanitize nic`. -/
def net_get_config_topic (nic icon uom tp system_name : String) :
    List (String × String) × ConfigTopic :=
  let sn := sanitize system_name
  let n := sanitize nic
  let topics := mkTopics tp sn ("net_" ++ n)
  (topics,
   { name := system_name ++ " Network (" ++ nic ++ ")",
     unique_id := sn ++ "_net_" ++ n,
     qos := 1,
     icon := icon,
     unit_of_measurement := uom,
     availability_topic := (topics.lookup "avail").getD "",
     json_attributes_topic := (topics.lookup "attrs").getD "",
     state_topic := (topics.lookup "state").getD "" })

/-- Outcome of a Poller dispatch step for one asynchronous metric in one
cycle. -/
inductive CycleEntry
  | dispatched (threadsStarted : Nat)
  | stillRunning
deriving DecidableEq

/-- Modelled from the spec: the per-cycle dispatch step of the Poller for
one asynchronous Metric.  The dispatch loop itself is not part of
`metrics.py`; per the spec the Poller "must track in-flight state per
Metric and skip re-dispatch if still pending, reporting a 'still running'
condition for that cycle rather than starting overlapping samplers".
`pollSpawn` is the number of threads the metric's `poll` starts when it is
invoked (`cpuPoll.1` or `netPoll.1`, i.e. `1`). -/
def pollerDispatch (pollSpawn : Nat) (inFlight : Bool) : CycleEntry :=
  if inFlight then CycleEntry.stillRunning else CycleEntry.dispatched pollSpawn

lemma netStep_none (s : NetState) : netStep s none = s := rfl

lemma netStep_some_tx_bytes (s : NetState) (tx rx : Nat) :
    (netStep s (some (tx, rx))).tx_bytes =
      s.tx_bytes ++ [(if tx < s.prev_tx then s.base_tx + s.prev_tx else s.base_tx) + tx] := rfl

lemma netStep_some_rx_bytes (s : NetState) (tx rx : Nat) :
    (netStep s (some (tx, rx))).rx_bytes =
      s.rx_bytes ++ [(if rx < s.prev_rx then s.base_rx + s.prev_rx else s.base_rx) + rx] := rfl

lemma netStep_inv {s : NetState} (h : NetInv s) (o : Option (Nat × Nat)) :
    NetInv (netStep s o) := by
  obtain ⟨htx, hrx, hltx, hlrx⟩ := h
  cases o with
  | none => exact ⟨htx, hrx, hltx, hlrx⟩
  | some p =>
    obtain ⟨tx, rx⟩ := p
    refine ⟨?_, ?_, ?_, ?_⟩
    · rw [netStep_some_tx_bytes, List.chain'_append]
      refine ⟨htx, List.chain'_singleton _, ?_⟩
      intro x hx y hy
      simp only [List.head?_cons, Option.mem_def, Option.some.injEq] at hy
      subst hy
      have hx' := hltx x hx
      split <;> omega
    · rw [netStep_some_rx_bytes, List.chain'_append]
      refine ⟨hrx, List.chain'_singleton _, ?_⟩
      intro x hx y hy
      simp only [List.head?_cons, Option.mem_def, Option.some.injEq] at hy
      subst hy
      have hx' := hlrx x hx
      split <;> omega
    · intro a ha
      rw [netStep_some_tx_bytes, List.getLast?_concat, Option.mem_def,
        Option.some.injEq] at ha
      subst ha
      exact Nat.le_refl _
    · intro a ha
      rw [netStep_some_rx_bytes, List.getLast?_concat, Option.mem_def,
        Option.some.injEq] at ha
      subst ha
      exact Nat.le_refl _

lemma netFoldl_inv (sched : List (Option (Nat × Nat))) :
    ∀ s : NetState, NetInv s → NetInv (sched.foldl netStep s) := by
  induction sched with
  | nil => exact fun s h => h
  | cons a t ih =>
    intro s h
    rw [List.foldl_cons]
    exact ih _ (netStep_inv h a)

lemma netLoop_inv (sched : List (Option (Nat × Nat))) : NetInv (netLoop sched) := by
  apply netFoldl_inv
  refine ⟨List.chain'_nil, List.chain'_nil, ?_, ?_⟩ <;>
    · intro a ha
      simp [initNetState] at ha

lemma netStep_some_prev_tx (s : NetState) (tx rx : Nat) :
    (netStep s (some (tx, rx))).prev_tx = tx := rfl

lemma netStep_some_prev_rx (s : NetState) (tx rx : Nat) :
    (netStep s (some (tx, rx))).prev_rx = rx := rfl

lemma netStep_some_base_tx (s : NetState) (tx rx : Nat) :
    (netStep s (some (tx, rx))).base_tx =
      if tx < s.prev_tx then s.base_tx + s.prev_tx else s.base_tx := rfl

lemma netStep_some_base_rx (s : NetState) (tx rx : Nat) :
    (netStep s (some (tx, rx))).base_rx =
      if rx < s.prev_rx then s.base_rx + s.prev_rx else s.base_rx := rfl

lemma netFoldl_noRollover :
    ∀ (raws : List (Nat × Nat)) (s : NetState), s.base_tx = 0 → s.base_rx = 0 →
      List.Chain' (· ≤ ·) (s.prev_tx :: raws.map Prod.fst) →
      List.Chain' (· ≤ ·) (s.prev_rx :: raws.map Prod.snd) →
      ((raws.map some).foldl netStep s).tx_bytes = s.tx_bytes ++ raws.map Prod.fst ∧
      ((raws.map some).foldl netStep s).rx_bytes = s.rx_bytes ++ raws.map Prod.snd := by
  intro raws
  induction raws with
  | nil =>
    intro s _ _ _ _
    simp
  | cons p t ih =>
    obtain ⟨tx, rx⟩ := p
    intro s h0tx h0rx htx hrx
    rw [List.map_cons, List.chain'_cons] at htx
    rw [List.map_cons, List.chain'_cons] at hrx
    obtain ⟨h1tx, htx'⟩ := htx
    obtain ⟨h1rx, hrx'⟩ := hrx
    have hntx : ¬ tx < s.prev_tx := by omega
    have hnrx : ¬ rx < s.prev_rx := by omega
    have hb_tx : (netStep s (some (tx, rx))).base_tx = 0 := by
      rw [netStep_some_base_tx, if_neg hntx]
      exact h0tx
    have hb_rx : (netStep s (some (tx, rx))).base_rx = 0 := by
      rw [netStep_some_base_rx, if_neg hnrx]
      exact h0rx
    have hc_tx :
        List.Chain' (· ≤ ·) ((netStep s (some (tx, rx))).prev_tx :: t.map Prod.fst) := by
      rw [netStep_some_prev_tx]
      exact htx'
    have hc_rx :
        List.Chain' (· ≤ ·) ((netStep s (some (tx, rx))).prev_rx :: t.map Prod.snd) := by
      rw [netStep_some_prev_rx]
      exact hrx'
    obtain ⟨e1, e2⟩ := ih (netStep s (some (tx, rx))) hb_tx hb_rx hc_tx hc_rx
    rw [List.map_cons, List.foldl_cons]
    constructor
    · rw [e1, netStep_some_tx_bytes, if_neg hntx, h0tx]
      simp
    · rw [e2, netStep_some_rx_bytes, if_neg hnrx, h0rx]
      simp

/-- C1: over any schedule of raw tx (resp. rx) counter samples, the
corrected values `accumulatedBase + rawValue` appended to `tx_bytes`
(resp. `rx_bytes`) form a monotonically non-decreasing sequence, even when
a raw sample drops below its predecessor; and a rollover step
(`v < prev`, `0 < v`) strictly increases the last corrected value. -/
theorem C1_corrected_counter_monotone :
    (∀ sched : List (Option (Nat × Nat)),
      List.Chain' (· ≤ ·) (netLoop sched).tx_bytes ∧
      List.Chain' (· ≤ ·) (netLoop sched).rx_bytes) ∧
    (∀ (sched : List (Option (Nat × Nat))) (vtx vrx : Nat),
      vtx < (netLoop sched).prev_tx → 0 < vtx →
      ∀ l ∈ (netLoop sched).tx_bytes.getLast?,
        ∀ l' ∈ (netLoop (sched ++ [some (vtx, vrx)])).tx_bytes.getLast?, l < l') ∧
    (∀ (sched : List (Option (Nat × Nat))) (vtx vrx : Nat),
      vrx < (netLoop sched).prev_rx → 0 < vrx →
      ∀ l ∈ (netLoop sched).rx_bytes.getLast?,
        ∀ l' ∈ (netLoop (sched ++ [some (vtx, vrx)])).rx_bytes.getLast?, l < l') := by
  have hstep : ∀ (sched : List (Option (Nat × Nat))) (v : Option (Nat × Nat)),
      netLoop (sched ++ [v]) = netStep (netLoop sched) v := by
    intro sched v
    rw [netLoop, netLoop, List.foldl_append, List.foldl_cons, List.foldl_nil]
  refine ⟨fun sched => ⟨(netLoop_inv sched).1, (netLoop_inv sched).2.1⟩, ?_, ?_⟩
  · intro sched vtx vrx hlt hpos l hl l' hl'
    have hinv := (netLoop_inv sched).2.2.1 l hl
    rw [hstep, netStep_some_tx_bytes, List.getLast?_concat, Option.mem_def,
      Option.some.injEq] at hl'
    subst hl'
    rw [if_pos hlt]
    omega
  · intro sched vtx vrx hlt hpos l hl l' hl'
    have hinv := (netLoop_inv sched).2.2.2 l hl
    rw [hstep, netStep_some_rx_bytes, List.getLast?_concat, Option.mem_def,
      Option.some.injEq] at hl'
    subst hl'
    rw [if_pos hlt]
    omega

/-- Witness for C1: raw tx samples `[10, 5]` (rollover at the second
sample) give corrected samples `[10, 15]`; raw rx samples `[10, 3]` give
`[10, 13]`; both chains hold and both rollover steps strictly increase. -/
theorem C1_corrected_counter_monotone_witness :
    List.Chain' (· ≤ ·) (netLoop [some (10, 10), some (5, 3)]).tx_bytes ∧
    List.Chain' (· ≤ ·) (netLoop [some (10, 10), some (5, 3)]).rx_bytes ∧
    (10 : Nat) < 15 ∧ (10 : Nat) < 13 := by
  refine ⟨(C1_corrected_counter_monotone.1 _).1,
    (C1_corrected_counter_monotone.1 _).2, ?_, ?_⟩
  · exact C1_corrected_counter_monotone.2.1 [some (10, 10)] 5 3
      (by decide) (by decide) 10 rfl 15 rfl
  · exact C1_corrected_counter_monotone.2.2 [some (10, 10)] 5 3
      (by decide) (by decide) 10 rfl 13 rfl

/-- C2: when no raw sample is smaller than its predecessor (no rollover),
the corrected sample lists equal the raw sequences, each direction's rate
is the arithmetic mean of the consecutive raw deltas divided by 125, and a
completed run reports `state` as the one-decimal string of
`tx_rate + rx_rate` (via `netStateStr`/`fmt1`). -/
theorem C2_no_rollover_rate (raws : List (Nat × Nat))
    (htx : List.Chain' (· ≤ ·) (raws.map Prod.fst))
    (hrx : List.Chain' (· ≤ ·) (raws.map Prod.snd)) :
    (netLoop (raws.map some)).tx_bytes = raws.map Prod.fst ∧
    (netLoop (raws.map some)).rx_bytes = raws.map Prod.snd ∧
    netTxRate (netLoop (raws.map some)) =
      (npAverage (npDiff (raws.map Prod.fst))).map (fun r => r / 125) ∧
    netRxRate (netLoop (raws.map some)) =
      (npAverage (npDiff (raws.map Prod.snd))).map (fun r => r / 125) ∧
    (∀ (nics0 : Option (Nat × Nat)) (v : Nat × Nat), raws.getLast? = some v →
      netRun nics0 (raws.map some) = Except.ok
        { state := netStateStr (netTxRate (netLoop (raws.map some)))
            (netRxRate (netLoop (raws.map some))),
          tx_rate := (netTxRate (netLoop (raws.map some))).map round1,
          rx_rate := (netRxRate (netLoop (raws.map some))).map round1,
          last_tx := v.1, last_rx := v.2 }) := by
  have hc0tx : List.Chain' (· ≤ ·) (initNetState.prev_tx :: raws.map Prod.fst) := by
    rw [List.chain'_cons']
    exact ⟨fun y _ => Nat.zero_le y, htx⟩
  have hc0rx : List.Chain' (· ≤ ·) (initNetState.prev_rx :: raws.map Prod.snd) := by
    rw [List.chain'_cons']
    exact ⟨fun y _ => Nat.zero_le y, hrx⟩
  obtain ⟨e1, e2⟩ := netFoldl_noRollover raws initNetState rfl rfl hc0tx hc0rx
  have e1' : (netLoop (raws.map some)).tx_bytes = raws.map Prod.fst := by
    rw [netLoop, e1]
    simp [initNetState]
  have e2' : (netLoop (raws.map some)).rx_bytes = raws.map Prod.snd := by
    rw [netLoop, e2]
    simp [initNetState]
  refine ⟨e1', e2', ?_, ?_, ?_⟩
  · rw [netTxRate, e1']
  · rw [netRxRate, e2']
  · intro nics0 v hv
    simp only [netRun, List.getLast?_map, hv, Option.map_some', Option.getD_some]

/-- Witness for C2 at the spec's example: tx samples `[1000, 1500, 2000]`,
rx samples `[500, 600, 700]`, interval 3: corrected lists equal the raw
lists, `tx_rate = 4`, `rx_rate = 4/5 = 0.8`, reported state `"4.8"`. -/
theorem C2_no_rollover_rate_witness :
    (netLoop [some (1000, 500), some (1500, 600), some (2000, 700)]).tx_bytes =
      [1000, 1500, 2000] ∧
    (netLoop [some (1000, 500), some (1500, 600), some (2000, 700)]).rx_bytes =
      [500, 600, 700] ∧
    netTxRate (netLoop [some (1000, 500), some (1500, 600), some (2000, 700)]) =
      some 4 ∧
    netRxRate (netLoop [some (1000, 500), some (1500, 600), some (2000, 700)]) =
      some (4 / 5) ∧
    netRun none [some (1000, 500), some (1500, 600), some (2000, 700)] =
      Except.ok { state := "4.8", tx_rate := some 4, rx_rate := some (4 / 5),
                  last_tx := 2000, last_rx := 700 } := by
  have h := C2_no_rollover_rate [(1000, 500), (1500, 600), (2000, 700)]
    (by norm_num [List.chain'_cons, List.chain'_singleton])
    (by norm_num [List.chain'_cons, List.chain'_singleton])
  have e1 : (netLoop [some (1000, 500), some (1500, 600), some (2000, 700)]).tx_bytes =
      [1000, 1500, 2000] := h.1
  have e2 : (netLoop [some (1000, 500), some (1500, 600), some (2000, 700)]).rx_bytes =
      [500, 600, 700] := h.2.1
  have hatx : npAverage (npDiff [1000, 1500, 2000]) = some 500 := by
    rw [show npDiff [1000, 1500, 2000] = [500, 500] from by decide, npAverage]
    norm_num [List.sum_cons, List.sum_nil]
  have harx : npAverage (npDiff [500, 600, 700]) = some 100 := by
    rw [show npDiff [500, 600, 700] = [100, 100] from by decide, npAverage]
    norm_num [List.sum_cons, List.sum_nil]
  have h3 : netTxRate (netLoop [some (1000, 500), some (1500, 600), some (2000, 700)]) =
      some 4 := by
    rw [netTxRate, e1, hatx, Option.map_some']
    norm_num
  have h4 : netRxRate (netLoop [some (1000, 500), some (1500, 600), some (2000, 700)]) =
      some (4 / 5) := by
    rw [netRxRate, e2, harx, Option.map_some']
    norm_num
  have hfl : (⌊(24 / 5 : ℚ) * 10 + 1 / 2⌋ : Int) = 48 := by
    rw [Int.floor_eq_iff]
    norm_num
  have hstate : netStateStr (some (4 : ℚ)) (some (4 / 5 : ℚ)) = "4.8" := by
    rw [netStateStr, show (4 : ℚ) + 4 / 5 = 24 / 5 from by norm_num, fmt1, hfl]
    decide
  have hr1 : round1 (4 : ℚ) = 4 := by
    rw [round1, show (4 : ℚ) * 10 + 1 / 2 = 81 / 2 from by norm_num,
      show (⌊(81 / 2 : ℚ)⌋ : Int) = 40 from by rw [Int.floor_eq_iff]; norm_num]
    norm_num
  have hr2 : round1 (4 / 5 : ℚ) = 4 / 5 := by
    rw [round1, show (4 / 5 : ℚ) * 10 + 1 / 2 = 17 / 2 from by norm_num,
      show (⌊(17 / 2 : ℚ)⌋ : Int) = 8 from by rw [Int.floor_eq_iff]; norm_num]
    norm_num
  have h5 : netRun none [some (1000, 500), some (1500, 600), some (2000, 700)] =
      Except.ok
        { state := netStateStr
            (netTxRate (netLoop [some (1000, 500), some (1500, 600), some (2000, 700)]))
            (netRxRate (netLoop [some (1000, 500), some (1500, 600), some (2000, 700)])),
          tx_rate := (netTxRate
            (netLoop [some (1000, 500), some (1500, 600), some (2000, 700)])).map round1,
          rx_rate := (netRxRate
            (netLoop [some (1000, 500), some (1500, 600), some (2000, 700)])).map round1,
          last_tx := 2000, last_rx := 700 } :=
    h.2.2.2.2 none (2000, 700) rfl
  rw [h3, h4, hstate, Option.map_some', Option.map_some', hr1, hr2] at h5
  exact ⟨e1, e2, h3, h4, h5⟩

lemma getLastD_none_of_all_none (l : List (Option (Nat × Nat)))
    (h : ∀ x ∈ l, x = none) : l.getLast?.getD none = none := by
  induction l with
  | nil => rfl
  | cons a t ih =>
    cases t with
    | nil =>
      have ha := h a (List.mem_singleton_self a)
      simp [ha]
    | cons b t' =>
      rw [List.getLast?_cons_cons]
      exact ih fun x hx => h x (List.mem_cons_of_mem a hx)

/-- C3 (code bug): with the target interface absent from the counter map
at every sampling second, `NetworkMetricThread.run` does not deliver an
error Reading: it raises an uncaught `KeyError` at
`nics[self.metric.nic]` (modelled `Except.error ()`) and performs no
`result_queue.put` at all. -/
theorem C3_absent_interface_no_reading (n : Nat) :
    netRun none (List.replicate n none) = Except.error () ∧
    netPuts none (List.replicate n none) = [] := by
  have hl : (List.replicate n (none : Option (Nat × Nat))).getLast?.getD none = none :=
    getLastD_none_of_all_none _ (fun x hx => List.eq_of_mem_replicate hx)
  constructor
  · simp only [netRun, hl]
  · simp only [netPuts, netRun, hl]

/-- C4 (code bug): each `poll` call spawns exactly one thread and returns
`True`, and the CPU thread always pushes its result exactly once; the
network thread pushes exactly once when the final counter read contains
the interface, but pushes nothing (instead of an error Reading) when the
interface is absent — it dies in the `KeyError`. -/
theorem C4_one_spawn_one_push :
    cpuPoll = (1, true) ∧ netPoll = (1, true) ∧
    (∀ ct : CpuTimes, (cpuPuts ct).length = 1) ∧
    (netPuts (some (0, 0)) [some (1, 2), some (3, 4)]).length = 1 ∧
    (netPuts none [none]).length = 0 := by
  refine ⟨rfl, rfl, fun ct => rfl, ?_, ?_⟩ <;> decide

lemma netFoldl_length :
    ∀ (raws : List (Nat × Nat)) (s : NetState),
      ((raws.map some).foldl netStep s).tx_bytes.length =
        s.tx_bytes.length + raws.length ∧
      ((raws.map some).foldl netStep s).rx_bytes.length =
        s.rx_bytes.length + raws.length := by
  intro raws
  induction raws with
  | nil =>
    intro s
    simp
  | cons p t ih =>
    obtain ⟨tx, rx⟩ := p
    intro s
    rw [List.map_cons, List.foldl_cons]
    obtain ⟨e1, e2⟩ := ih (netStep s (some (tx, rx)))
    rw [e1, e2, netStep_some_tx_bytes, netStep_some_rx_bytes]
    constructor <;> · simp [List.length_append]; omega

/-- C5: with the interface present at all `n ≥ 1` sampling seconds, the
loop appends exactly `n` corrected samples per direction and the rate is
computed over exactly `n - 1` consecutive deltas. -/
theorem C5_sample_delta_counts (n : Nat) (hn : 1 ≤ n) (raws : List (Nat × Nat))
    (hlen : raws.length = n) :
    (netLoop (raws.map some)).tx_bytes.length = n ∧
    (netLoop (raws.map some)).rx_bytes.length = n ∧
    (npDiff (netLoop (raws.map some)).tx_bytes).length = n - 1 ∧
    (npDiff (netLoop (raws.map some)).rx_bytes).length = n - 1 := by
  obtain ⟨e1, e2⟩ := netFoldl_length raws initNetState
  have l1 : (netLoop (raws.map some)).tx_bytes.length = n := by
    rw [netLoop, e1]
    simp [initNetState, hlen]
  have l2 : (netLoop (raws.map some)).rx_bytes.length = n := by
    rw [netLoop, e2]
    simp [initNetState, hlen]
  refine ⟨l1, l2, ?_, ?_⟩
  · rw [npDiff, List.length_zipWith, List.length_tail, l1]
    omega
  · rw [npDiff, List.length_zipWith, List.length_tail, l2]
    omega

/-- Witness for C5: `interval = 5` with the interface present all five
seconds gives 5 samples per direction and 4 deltas. -/
theorem C5_sample_delta_counts_witness :
    (netLoop [some (0, 0), some (1, 2), some (3, 4), some (5, 6),
      some (7, 8)]).tx_bytes.length = 5 ∧
    (netLoop [some (0, 0), some (1, 2), some (3, 4), some (5, 6),
      some (7, 8)]).rx_bytes.length = 5 ∧
    (npDiff (netLoop [some (0, 0), some (1, 2), some (3, 4), some (5, 6),
      some (7, 8)]).tx_bytes).length = 4 ∧
    (npDiff (netLoop [some (0, 0), some (1, 2), some (3, 4), some (5, 6),
      some (7, 8)]).rx_bytes).length = 4 :=
  C5_sample_delta_counts 5 (by decide) [(0, 0), (1, 2), (3, 4), (5, 6), (7, 8)] rfl

lemma netFoldl_skip_none :
    ∀ (sched : List (Option (Nat × Nat))) (s : NetState),
      sched.foldl netStep s = ((sched.filterMap id).map some).foldl netStep s := by
  intro sched
  induction sched with
  | nil =>
    intro s
    rfl
  | cons a t ih =>
    intro s
    cases a with
    | none =>
      rw [List.foldl_cons, netStep_none,
        show (none :: t : List (Option (Nat × Nat))).filterMap id = t.filterMap id from
          by simp]
      exact ih s
    | some p =>
      rw [List.foldl_cons,
        show (some p :: t : List (Option (Nat × Nat))).filterMap id =
          p :: t.filterMap id from by simp,
        List.map_cons, List.foldl_cons]
      exact ih (netStep s (some p))

/-- C6: sampling seconds at which the interface is absent contribute no
sample (nothing, in particular no zero, is appended): the loop state is
exactly that of the schedule restricted to the present seconds, so the
deltas feeding the rate are computed only between consecutively appended
present samples. -/
theorem C6_absent_seconds_skipped (sched : List (Option (Nat × Nat))) :
    netLoop sched = netLoop ((sched.filterMap id).map some) ∧
    (netLoop sched).tx_bytes.length = (sched.filterMap id).length ∧
    (netLoop sched).rx_bytes.length = (sched.filterMap id).length ∧
    netTxRate (netLoop sched) = netTxRate (netLoop ((sched.filterMap id).map some)) ∧
    netRxRate (netLoop sched) = netRxRate (netLoop ((sched.filterMap id).map some)) := by
  have he : netLoop sched = netLoop ((sched.filterMap id).map some) :=
    netFoldl_skip_none sched initNetState
  obtain ⟨e1, e2⟩ := netFoldl_length (sched.filterMap id) initNetState
  refine ⟨he, ?_, ?_, by rw [he], by rw [he]⟩
  · rw [he, netLoop, e1]
    simp [initNetState]
  · rw [he, netLoop, e2]
    simp [initNetState]

/-- C7: the synchronous metrics' `poll` populates the Reading before
returning, with `state` the one-decimal percentage string of the sampled
percent, and is immediate in the spec's sense (the code's return value
`False` means "no deferred result"); at 42.3 percent used the state is
`"42.3"`. -/
theorem C7_sync_poll_immediate (p : ℚ) :
    (vmPoll p).1.state = fmt1 p ∧ immediateOfRet (vmPoll p).2 = true ∧
    (vmPoll p).1.attrs_percent = p ∧
    (diskPoll p).1.state = fmt1 p ∧ immediateOfRet (diskPoll p).2 = true ∧
    (diskPoll p).1.attrs_percent = p ∧
    (diskPoll (423 / 10)).1.state = "42.3" := by
  refine ⟨rfl, rfl, rfl, rfl, rfl, rfl, ?_⟩
  show fmt1 (423 / 10 : ℚ) = "42.3"
  rw [fmt1, show (⌊(423 / 10 : ℚ) * 10 + 1 / 2⌋ : Int) = 423 from by
    rw [Int.floor_eq_iff]
    norm_num]
  decide

/-- C8: the Poller's dispatch for an asynchronous metric whose previous
background work is still in flight starts no new sampler and reports the
still-running condition; when not in flight it invokes `poll`, which
starts exactly one thread. -/
theorem C8_still_running_no_second_sampler (pollSpawn : Nat) :
    pollerDispatch pollSpawn true = CycleEntry.stillRunning ∧
    pollerDispatch cpuPoll.1 false = CycleEntry.dispatched 1 ∧
    pollerDispatch netPoll.1 false = CycleEntry.dispatched 1 :=
  ⟨rfl, rfl, rfl⟩

lemma char_toNat_ofNat {m : Nat} (h : m < 55296) : (Char.ofNat m).toNat = m := by
  rw [Char.ofNat, dif_pos (Or.inl h)]
  rfl

lemma char_isUpper_iff (c : Char) : c.isUpper = true ↔ 65 ≤ c.toNat ∧ c.toNat ≤ 90 := by
  have e65 : ((65 : UInt32)).toBitVec.toNat = 65 := by decide
  have e90 : ((90 : UInt32)).toBitVec.toNat = 90 := by decide
  rw [Char.isUpper, Bool.and_eq_true, decide_eq_true_eq, decide_eq_true_eq]
  simp only [ge_iff_le, UInt32.le_def, BitVec.le_def, Char.toNat, UInt32.toNat]
  rw [e65, e90]

lemma toLower_eq_of_upper {c : Char} (h : 65 ≤ c.toNat ∧ c.toNat ≤ 90) :
    c.toLower = Char.ofNat (c.toNat + 32) := by
  rw [Char.toLower, if_pos ⟨h.1, h.2⟩]

lemma toLower_eq_self {c : Char} (h : ¬(65 ≤ c.toNat ∧ c.toNat ≤ 90)) :
    c.toLower = c := by
  rw [Char.toLower, if_neg (fun hc => h ⟨hc.1, hc.2⟩)]

lemma isUpper_toLower_false (c : Char) : (c.toLower).isUpper = false := by
  by_cases h : 65 ≤ c.toNat ∧ c.toNat ≤ 90
  · rw [toLower_eq_of_upper h, Bool.eq_false_iff]
    intro hu
    rw [char_isUpper_iff, char_toNat_ofNat (by omega)] at hu
    omega
  · rw [toLower_eq_self h, Bool.eq_false_iff]
    intro hu
    rw [char_isUpper_iff] at hu
    exact h hu

lemma toLower_of_not_upper {c : Char} (h : c.isUpper = false) : c.toLower = c := by
  apply toLower_eq_self
  intro hc
  rw [← char_isUpper_iff] at hc
  rw [h] at hc
  exact Bool.noConfusion hc

lemma replChar_ne (a b c : Char) (h : c ≠ a) : replChar a b c = c := if_neg h

lemma replChar_props (d : Char) (hU : d.isUpper = false) :
    (replChar '/' '_' (replChar ' ' '_' d)).isUpper = false ∧
    replChar '/' '_' (replChar ' ' '_' d) ≠ ' ' ∧
    replChar '/' '_' (replChar ' ' '_' d) ≠ '/' := by
  by_cases h2 : d = ' '
  · subst h2
    decide
  · rw [replChar_ne _ _ _ h2]
    by_cases h3 : d = '/'
    · subst h3
      decide
    · rw [replChar_ne _ _ _ h3]
      exact ⟨hU, h2, h3⟩

lemma sanitizeChars_mem (l : List Char) :
    ∀ c ∈ sanitizeChars l, c.isUpper = false ∧ c ≠ ' ' ∧ c ≠ '/' := by
  intro c hc
  rw [sanitizeChars, pyReplaceChar, pyReplaceChar, List.map_map, List.map_map] at hc
  simp only [List.mem_map, Function.comp] at hc
  obtain ⟨d, hdl, rfl⟩ := hc
  exact replChar_props d.toLower (isUpper_toLower_false d)

lemma sanitizeChars_idem (l : List Char) :
    sanitizeChars (sanitizeChars l) = sanitizeChars l := by
  conv_lhs =>
    rw [sanitizeChars, pyReplaceChar, pyReplaceChar, List.map_map, List.map_map]
  have h : ∀ c ∈ sanitizeChars l,
      ((replChar '/' '_' ∘ replChar ' ' '_') ∘ Char.toLower) c = c := by
    intro c hc
    obtain ⟨hU, h2, h3⟩ := sanitizeChars_mem l c hc
    simp only [Function.comp]
    rw [toLower_of_not_upper hU, replChar_ne _ _ _ h2, replChar_ne _ _ _ h3]
  rw [List.map_congr_left h, List.map_id']

/-- C9: `sanitize` output contains no uppercase letter, no space and no
slash, and `sanitize` is idempotent. -/
theorem C9_sanitize_clean_idem (s : String) :
    (∀ c ∈ (sanitize s).data, c.isUpper = false ∧ c ≠ ' ' ∧ c ≠ '/') ∧
    sanitize (sanitize s) = sanitize s := by
  constructor
  · intro c hc
    exact sanitizeChars_mem s.data c hc
  · show String.mk (sanitizeChars (sanitizeChars s.data)) = String.mk (sanitizeChars s.data)
    exact congrArg String.mk (sanitizeChars_idem s.data)

/-- Witness for C9 on `"A b/C"`: sanitizing twice equals sanitizing once
(both are `"a_b_c"`), and the character `'a'` of the output is neither
uppercase nor a space nor a slash. -/
theorem C9_sanitize_clean_idem_witness :
    sanitize (sanitize "A b/C") = sanitize "A b/C" ∧
    ('a').isUpper = false ∧ ('a') ≠ ' ' ∧ ('a') ≠ '/' := by
  refine ⟨(C9_sanitize_clean_idem "A b/C").2, ?_⟩
  exact (C9_sanitize_clean_idem "A b/C").1 'a' (by decide)

/-- C10: each `get_config_topic` variant fills `self.topics` with exactly
the keys state/config/avail/attrs and returns a config dict whose
`state_topic`, `availability_topic` and `json_attributes_topic` are read
back from `self.topics["state"]`, `self.topics["avail"]`,
`self.topics["attrs"]`. -/
theorem C10_config_reads_topics (name icon uom tp system_name mountpoint nic : String) :
    ((get_config_topic name icon uom tp system_name).1.map Prod.fst =
        ["state", "config", "avail", "attrs"] ∧
      (get_config_topic name icon uom tp system_name).1.lookup "state" =
        some (get_config_topic name icon uom tp system_name).2.state_topic ∧
      (get_config_topic name icon uom tp system_name).1.lookup "avail" =
        some (get_config_topic name icon uom tp system_name).2.availability_topic ∧
      (get_config_topic name icon uom tp system_name).1.lookup "attrs" =
        some (get_config_topic name icon uom tp system_name).2.json_attributes_topic) ∧
    ((disk_get_config_topic mountpoint icon uom tp system_name).1.map Prod.fst =
        ["state", "config", "avail", "attrs"] ∧
      (disk_get_config_topic mountpoint icon uom tp system_name).1.lookup "state" =
        some (disk_get_config_topic mountpoint icon uom tp system_name).2.state_topic ∧
      (disk_get_config_topic mountpoint icon uom tp system_name).1.lookup "avail" =
        some (disk_get_config_topic mountpoint icon uom tp system_name).2.availability_topic ∧
      (disk_get_config_topic mountpoint icon uom tp system_name).1.lookup "attrs" =
        some (disk_get_config_topic mountpoint icon uom tp
          system_name).2.json_attributes_topic) ∧
    ((net_get_config_topic nic icon uom tp system_name).1.map Prod.fst =
        ["state", "config", "avail", "attrs"] ∧
      (net_get_config_topic nic icon uom tp system_name).1.lookup "state" =
        some (net_get_config_topic nic icon uom tp system_name).2.state_topic ∧
      (net_get_config_topic nic icon uom tp system_name).1.lookup "avail" =
        some (net_get_config_topic nic icon uom tp system_name).2.availability_topic ∧
      (net_get_config_topic nic icon uom tp system_name).1.lookup "attrs" =
        some (net_get_config_topic nic icon uom tp system_name).2.json_attributes_topic) :=
  ⟨⟨rfl, rfl, rfl, rfl⟩, ⟨rfl, rfl, rfl, rfl⟩, ⟨rfl, rfl, rfl, rfl⟩⟩

end MetricsMqtt
